import Mathlib

/-!
Shallow embedding of Crow's cookie middleware
(`include/crow/middlewares/cookie_parser.h`): the `Cookie` value type and
its `format()` serializer, the request `Cookie`-header parser run by
`before_handle`, the request-scoped context (`jar`, `cookies_to_add`), and
the `after_handle` serialization of staged cookies, together with theorems
checking the specification's claims against this embedding.

Strings are modelled as Lean `String` (a wrapper around `List Char`); the
position-based C++ scanning loop is modelled as a recursion over the
remaining suffix of the header, driven by a fuel argument that `parse`
instantiates with one more than the length of the input (the loop consumes
at least one character of the remaining suffix per iteration, which is
proved as part of the termination claim).
-/

namespace Crow

/-- Character class trimmed by boost::trim in the classic locale
(std::isspace): space, tab, newline, vertical tab, form feed, carriage
return. -/
def boostIsSpace (c : Char) : Bool :=
  c == ' ' || c == '\t' || c == '\n' || c == Char.ofNat 11 || c == Char.ofNat 12 || c == '\r'

/-- Trim of boost::trim: drop the classed characters from both ends. -/
def trimList (l : List Char) : List Char :=
  ((l.dropWhile boostIsSpace).reverse.dropWhile boostIsSpace).reverse

/-- Reading std::string operator[]: in C++11 and later, indexing at
position size() is valid and yields the null character; the parser relies
on this (short-circuit) when it checks value[0] on an empty value. -/
def cppNth (l : List Char) (i : Nat) : Char :=
  l.getD i (Char.ofNat 0)

/-- Split at the first occurrence of a character, as std::string::find
followed by the two substr calls around the found position: returns the
part strictly before the character and the part strictly after it, or
none when the character does not occur. -/
def splitAtChar (c : Char) : List Char → Option (List Char × List Char)
  | [] => none
  | x :: xs =>
    if x = c then some ([], xs)
    else
      match splitAtChar c xs with
      | none => none
      | some (a, b) => some (x :: a, b)

/-- Quote test of the parser: value[0] == a quote and
value[value.size()-1] == a quote, with the C++ indexing semantics of
cppNth. On the empty string the first conjunct reads the null character
and fails, so the second (out-of-bounds) read is short-circuited away,
exactly as in the source. -/
def quoteCond (v : List Char) : Bool :=
  cppNth v 0 == '"' && cppNth v (v.length - 1) == '"'

/-- Quote stripping of the parser: value = value.substr(1, value.size()-2)
when quoteCond holds. For a one-character value the C++ count
value.size()-2 wraps around to npos and substr keeps zero characters; Nat
truncated subtraction gives count 0 and keeps zero characters as well, so
the two agree on every reachable input. -/
def processValue (v : List Char) : List Char :=
  if quoteCond v then (v.drop 1).take (v.length - 2) else v

/-- Jar of parsed cookies. std::unordered_map is modelled as an
association list queried by first match; the claims only ever inspect the
key-to-value mapping, which the list represents faithfully. -/
abbrev Jar := List (String × String)

/-- Lookup of std::unordered_map::find. -/
def lookupJar (jar : Jar) (k : String) : Option String :=
  match jar with
  | [] => none
  | (a, b) :: t => if a = k then some b else lookupJar t k

/-- Insertion of std::unordered_map::emplace: inserts only when the key is
not already present, never overwrites. -/
def emplace (jar : Jar) (k v : String) : Jar :=
  if (lookupJar jar k).isSome then jar else jar ++ [(k, v)]

/-- Scanning loop of before_handle over the remaining suffix of the
header. One iteration: find the next unquote, trim the part before it as
the name, skip literal spaces, stop on the exhausted input, find the next
semicolon, trim and quote-strip the part before it as the value, emplace,
and continue after the semicolon (stopping when there was none). The fuel
argument only bounds the number of iterations; parse passes enough fuel
that the bound is never the reason the loop stops. -/
def parseLoop : Nat → List Char → Jar → Jar
  | 0, _, jar => jar
  | fuel + 1, cs, jar =>
    match splitAtChar '=' cs with
    | none => jar
    | some (npart, rest1) =>
      let name := String.mk (trimList npart)
      let rest2 := rest1.dropWhile (· == ' ')
      if rest2 = [] then jar
      else
        match splitAtChar ';' rest2 with
        | none => emplace jar name (String.mk (processValue (trimList rest2)))
        | some (vraw, rest3) =>
          parseLoop fuel (rest3.dropWhile (· == ' '))
            (emplace jar name (String.mk (processValue (trimList vraw))))

/-- Parser of the request Cookie header, as run by before_handle on the
single header value. -/
def parse (s : String) : Jar :=
  parseLoop (s.data.length + 1) s.data []

/-- Timestamp of boost::posix_time::ptime, carried together with its
rendering under the fixed HTTP date facet used by format(); no claim
depends on date arithmetic, only on where the rendered date appears. -/
structure PTime where
  httpDate : String
deriving DecidableEq

/-- SameSite policy enum of the source. -/
inductive SameSitePolicy
  | Strict
  | Lax
  | None
deriving DecidableEq

/-- Rendering of the switch statement inside format(). -/
def SameSitePolicy.render : SameSitePolicy → String
  | .Strict => "Strict"
  | .Lax => "Lax"
  | .None => "None"

/-- Relative duration of boost::posix_time::time_duration, represented by
its total length in whole seconds. -/
structure TimeDuration where
  totalSeconds : Int
deriving DecidableEq

/-- Accessor boost::posix_time::time_duration::seconds(): the normalized
seconds COMPONENT of the duration (ticks/ticks_per_second % 60 with C++
truncated %), not the total number of seconds. -/
def TimeDuration.seconds (d : TimeDuration) : Int :=
  d.totalSeconds.tmod 60

/-- Cookie value object, fields and defaults as in the source. -/
structure Cookie where
  key_ : String
  value_ : String
  max_age_ : Option Int := none
  domain_ : String := ""
  path_ : String := ""
  secure_ : Bool := false
  httponly_ : Bool := false
  expires_at_ : Option PTime := none
  same_site_ : Option SameSitePolicy := none
deriving DecidableEq

/-- Public Cookie constructor: key and value, all attributes default. -/
def Cookie.make (key value : String) : Cookie :=
  { key_ := key, value_ := value }

/-- Serializer Cookie::format(): key=value (an empty value rendered as two
quote characters), then each set attribute appended behind the divider,
in the fixed source order. -/
def Cookie.format (c : Cookie) : String :=
  let s0 := c.key_ ++ "=" ++ (if c.value_ = "" then "\"\"" else c.value_)
  let s1 :=
    match c.expires_at_ with
    | some t => s0 ++ "; " ++ "Expires=" ++ t.httpDate
    | none => s0
  let s2 :=
    match c.max_age_ with
    | some n => s1 ++ "; " ++ "Max-Age=" ++ toString n
    | none => s1
  let s3 := if c.domain_ ≠ "" then s2 ++ "; " ++ "Domain=" ++ c.domain_ else s2
  let s4 := if c.path_ ≠ "" then s3 ++ "; " ++ "Path=" ++ c.path_ else s3
  let s5 := if c.secure_ then s4 ++ "; " ++ "Secure" else s4
  let s6 := if c.httponly_ then s5 ++ "; " ++ "HttpOnly" else s5
  match c.same_site_ with
  | some p => s6 ++ "; " ++ "SameSite=" ++ p.render
  | none => s6

/-- Setter Cookie::expires. -/
def Cookie.expires (c : Cookie) (t : PTime) : Cookie :=
  { c with expires_at_ := some t }

/-- Setter Cookie::max_age(long long). -/
def Cookie.max_age (c : Cookie) (age : Int) : Cookie :=
  { c with max_age_ := some age }

/-- Setter Cookie::max_age(const time_duration&): stores dt.seconds(). -/
def Cookie.max_age_dur (c : Cookie) (dt : TimeDuration) : Cookie :=
  { c with max_age_ := some dt.seconds }

/-- Setter Cookie::domain. -/
def Cookie.domain (c : Cookie) (name : String) : Cookie :=
  { c with domain_ := name }

/-- Setter Cookie::path. -/
def Cookie.path (c : Cookie) (p : String) : Cookie :=
  { c with path_ := p }

/-- Setter Cookie::secure. -/
def Cookie.secure (c : Cookie) : Cookie :=
  { c with secure_ := true }

/-- Setter Cookie::httponly. -/
def Cookie.httponly (c : Cookie) : Cookie :=
  { c with httponly_ := true }

/-- Setter Cookie::same_site. -/
def Cookie.same_site (c : Cookie) (ssp : SameSitePolicy) : Cookie :=
  { c with same_site_ := some ssp }

/-- Request-scoped context of the middleware. -/
structure Ctx where
  jar : Jar := []
  cookies_to_add : List Cookie := []
deriving DecidableEq

/-- Accessor context::get_cookie: value from the jar or empty text. -/
def Ctx.get_cookie (ctx : Ctx) (k : String) : String :=
  match lookupJar ctx.jar k with
  | some v => v
  | none => ""

/-- Mutator context::set_cookie: stages one cookie at the back. -/
def Ctx.set_cookie (ctx : Ctx) (k v : String) : Ctx :=
  { ctx with cookies_to_add := ctx.cookies_to_add ++ [Cookie.make k v] }

/-- Response slice touched by this middleware: status code, the
finished/ended flag set by response::end(), and the appended headers. -/
structure Response where
  code : Nat := 200
  ended : Bool := false
  headers : List (String × String) := []
deriving DecidableEq

/-- Header append response::add_header. -/
def Response.add_header (res : Response) (k v : String) : Response :=
  { res with headers := res.headers ++ [(k, v)] }

/-- Request slice consumed by this middleware: the multiset count of
Cookie headers and the value get_header_value returns for the single one
the parser reads. -/
structure Request where
  cookieCount : Nat
  cookieHeader : String
deriving DecidableEq

/-- Hook CookieParser::before_handle: return untouched on zero Cookie
headers; force status 400 and end the response on two or more; otherwise
run the parser over the single header value into the jar. -/
def before_handle (req : Request) (res : Response) (ctx : Ctx) : Response × Ctx :=
  if req.cookieCount = 0 then (res, ctx)
  else if req.cookieCount > 1 then ({ res with code := 400, ended := true }, ctx)
  else
    (res,
      { ctx with
        jar := parseLoop (req.cookieHeader.data.length + 1) req.cookieHeader.data ctx.jar })

/-- Hook CookieParser::after_handle: append one Set-Cookie header per
staged cookie, in order; the context is only read. -/
def after_handle (res : Response) (ctx : Ctx) : Response × Ctx :=
  (ctx.cookies_to_add.foldl (fun r c => r.add_header "Set-Cookie" c.format) res, ctx)

/-- Attribute-setter calls, as data, for stating order-independence of
the fluent interface; the two max_age overloads target the same field. -/
inductive SOp
  | expiresA (t : PTime)
  | maxAgeA (n : Int)
  | maxAgeDurA (d : TimeDuration)
  | domainA (s : String)
  | pathA (s : String)
  | secureA
  | httponlyA
  | sameSiteA (p : SameSitePolicy)
deriving DecidableEq

/-- Run one setter call. -/
def applyOp (c : Cookie) : SOp → Cookie
  | .expiresA t => c.expires t
  | .maxAgeA n => c.max_age n
  | .maxAgeDurA d => c.max_age_dur d
  | .domainA s => c.domain s
  | .pathA s => c.path s
  | .secureA => c.secure
  | .httponlyA => c.httponly
  | .sameSiteA p => c.same_site p

/-- Attribute targeted by a setter call; the two max_age overloads share
a target. -/
def attrIdx : SOp → Nat
  | .expiresA _ => 0
  | .maxAgeA _ => 1
  | .maxAgeDurA _ => 1
  | .domainA _ => 2
  | .pathA _ => 3
  | .secureA => 4
  | .httponlyA => 5
  | .sameSiteA _ => 6

/-- Present attributes of a cookie, rendered without their divider, in
the fixed order the specification prescribes: Expires, Max-Age, Domain,
Path, Secure, HttpOnly, SameSite. -/
def attrSegments (c : Cookie) : List String :=
  (match c.expires_at_ with
   | some t => ["Expires=" ++ t.httpDate]
   | none => [])
  ++ (match c.max_age_ with
      | some n => ["Max-Age=" ++ toString n]
      | none => [])
  ++ (if c.domain_ ≠ "" then ["Domain=" ++ c.domain_] else [])
  ++ (if c.path_ ≠ "" then ["Path=" ++ c.path_] else [])
  ++ (if c.secure_ then ["Secure"] else [])
  ++ (if c.httponly_ then ["HttpOnly"] else [])
  ++ (match c.same_site_ with
      | some p => ["SameSite=" ++ p.render]
      | none => [])

/-- Concatenation that puts the divider in front of every segment, as the
specification words it: each present attribute is preceded by the literal
divider. -/
def prefixJoin : List String → String
  | [] => ""
  | a :: l => "; " ++ a ++ prefixJoin l

/-! Helper lemmas about the scanning primitives. -/

theorem splitAtChar_eq_some (c : Char) (l : List Char) :
    ∀ {a b : List Char}, splitAtChar c l = some (a, b) → l = a ++ c :: b := by
  induction l with
  | nil => intro a b h; simp [splitAtChar] at h
  | cons x xs ih =>
    intro a b h
    by_cases hx : x = c
    · simp only [splitAtChar, if_pos hx, Option.some.injEq, Prod.mk.injEq] at h
      rw [← h.1, ← h.2, hx]
      rfl
    · simp only [splitAtChar, if_neg hx] at h
      cases hs : splitAtChar c xs with
      | none => rw [hs] at h; simp at h
      | some p =>
        obtain ⟨a1, b1⟩ := p
        rw [hs] at h
        simp only [Option.some.injEq, Prod.mk.injEq] at h
        rw [← h.1, ← h.2]
        simpa using ih hs

theorem splitAtChar_append (c : Char) (a b : List Char) (h : c ∉ a) :
    splitAtChar c (a ++ c :: b) = some (a, b) := by
  induction a with
  | nil => simp [splitAtChar]
  | cons x xs ih =>
    have hx : x ≠ c := fun hc => h (hc ▸ List.mem_cons_self x xs)
    have hxs : c ∉ xs := fun hc => h (List.mem_cons_of_mem x hc)
    simp only [List.cons_append, splitAtChar, if_neg hx, List.append_eq, ih hxs]

theorem splitAtChar_eq_none (c : Char) (l : List Char) (h : c ∉ l) :
    splitAtChar c l = none := by
  induction l with
  | nil => rfl
  | cons x xs ih =>
    have hx : x ≠ c := fun hc => h (hc ▸ List.mem_cons_self x xs)
    have hxs : c ∉ xs := fun hc => h (List.mem_cons_of_mem x hc)
    simp only [splitAtChar, if_neg hx, ih hxs]

theorem length_dropWhile_le (p : Char → Bool) (l : List Char) :
    (l.dropWhile p).length ≤ l.length :=
  (List.dropWhile_suffix p).sublist.length_le

/-- Fixed point of trimList is a fixed point of the left dropWhile. -/
theorem dropWhile_of_trim_self (v : List Char) (h : trimList v = v) :
    v.dropWhile boostIsSpace = v := by
  have h1 : (v.dropWhile boostIsSpace).length ≤ v.length := length_dropWhile_le _ _
  have h2 : (trimList v).length ≤ (v.dropWhile boostIsSpace).length := by
    unfold trimList
    calc ((((v.dropWhile boostIsSpace).reverse.dropWhile boostIsSpace)).reverse).length
        = ((v.dropWhile boostIsSpace).reverse.dropWhile boostIsSpace).length := by
          rw [List.length_reverse]
      _ ≤ (v.dropWhile boostIsSpace).reverse.length := length_dropWhile_le _ _
      _ = (v.dropWhile boostIsSpace).length := by rw [List.length_reverse]
  rw [h] at h2
  exact (List.dropWhile_suffix boostIsSpace).sublist.eq_of_length (le_antisymm h1 h2)

/-- Fixed point of trimList does not start with a literal space, so the
space-skipping run after the separator leaves it unchanged. -/
theorem dropWhile_space_of_trim_self (v : List Char) (h : trimList v = v) :
    v.dropWhile (· == ' ') = v := by
  have hd : v.dropWhile boostIsSpace = v := dropWhile_of_trim_self v h
  cases v with
  | nil => rfl
  | cons x xs =>
    have hx : ¬ boostIsSpace x = true := by
      have := List.dropWhile_eq_self_iff.mp hd
      simpa using this (by simp)
    have hx2 : (x == ' ') = false := by
      apply beq_eq_false_iff_ne.mpr
      intro hc
      exact hx (by simp [hc, boostIsSpace])
    simp [List.dropWhile_cons, hx2]

theorem quoteCond_eq_false (v : List Char) (hne : v ≠ []) (hq : '"' ∉ v) :
    quoteCond v = false := by
  cases v with
  | nil => exact absurd rfl hne
  | cons x xs =>
    have hx : x ≠ '"' := fun hc => hq (hc ▸ List.mem_cons_self x xs)
    simp only [quoteCond, cppNth, List.getD_cons_zero]
    rw [beq_eq_false_iff_ne.mpr hx]
    rfl

theorem processValue_of_not_quoted (v : List Char) (h : quoteCond v = false) :
    processValue v = v := by
  simp [processValue, h]

theorem lookupJar_append_of_some (jar l : Jar) (k w : String)
    (h : lookupJar jar k = some w) : lookupJar (jar ++ l) k = some w := by
  induction jar with
  | nil => simp [lookupJar] at h
  | cons p t ih =>
    obtain ⟨a, b⟩ := p
    by_cases ha : a = k
    · simpa [lookupJar, ha] using h
    · rw [lookupJar, if_neg ha] at h
      simpa [lookupJar, ha] using ih h

theorem lookupJar_emplace (jar : Jar) (k w k2 v2 : String)
    (h : lookupJar jar k = some w) : lookupJar (emplace jar k2 v2) k = some w := by
  unfold emplace
  split
  · exact h
  · exact lookupJar_append_of_some jar [(k2, v2)] k w h

/-- Core of the parser on a lone name=value pair: with no second
separator in the name, no leading spaces and no semicolon in the value,
one iteration inserts the trimmed name and the trimmed, quote-stripped
value and stops. -/
theorem parseLoop_single (f : Nat) (k v : List Char) (hk : '=' ∉ k)
    (hsp : v.dropWhile (· == ' ') = v) (hne : v ≠ []) (hsemi : ';' ∉ v) :
    parseLoop (f + 1) (k ++ '=' :: v) [] =
      [(String.mk (trimList k), String.mk (processValue (trimList v)))] := by
  have h1 : splitAtChar '=' (k ++ '=' :: v) = some (k, v) := splitAtChar_append '=' k v hk
  have h2 : splitAtChar ';' v = none := splitAtChar_eq_none ';' v hsemi
  simp only [parseLoop, h1, hsp, if_neg hne, h2, emplace, lookupJar, Option.isSome_none,
    Bool.false_eq_true, if_neg, List.nil_append]
  simp

/-! Claim theorems. -/

/-- C2: before_handle takes no action on zero Cookie headers, forces
status 400 and ends the response (with no parsing and an unchanged
context) on two or more, and parses the single header value into the jar
exactly when the count is one. -/
theorem c2_header_count (req : Request) (res : Response) (ctx : Ctx) :
    (req.cookieCount = 0 → before_handle req res ctx = (res, ctx))
    ∧ (2 ≤ req.cookieCount →
        before_handle req res ctx = ({ res with code := 400, ended := true }, ctx))
    ∧ (req.cookieCount = 1 → before_handle req res ctx =
        (res, { ctx with
          jar := parseLoop (req.cookieHeader.data.length + 1) req.cookieHeader.data ctx.jar })) := by
  refine ⟨fun h => ?_, fun h => ?_, fun h => ?_⟩
  · simp [before_handle, h]
  · have h0 : ¬ req.cookieCount = 0 := by omega
    have h1 : req.cookieCount > 1 := by omega
    simp [before_handle, h0, h1]
  · simp [before_handle, h]

/-- Witness for C2 at the three concrete header counts. -/
theorem c2_header_count_witness :
    before_handle ⟨0, "x=1"⟩ ⟨200, false, []⟩ ⟨[], []⟩ = (⟨200, false, []⟩, ⟨[], []⟩)
    ∧ before_handle ⟨2, "x=1"⟩ ⟨200, false, []⟩ ⟨[], []⟩ = (⟨400, true, []⟩, ⟨[], []⟩)
    ∧ before_handle ⟨1, "x=1"⟩ ⟨200, false, []⟩ ⟨[], []⟩ = (⟨200, false, []⟩, ⟨[("x", "1")], []⟩) := by
  refine ⟨(c2_header_count ⟨0, "x=1"⟩ ⟨200, false, []⟩ ⟨[], []⟩).1 rfl, ?_, ?_⟩
  · exact (c2_header_count ⟨2, "x=1"⟩ ⟨200, false, []⟩ ⟨[], []⟩).2.1 (by decide)
  · have h := (c2_header_count ⟨1, "x=1"⟩ ⟨200, false, []⟩ ⟨[], []⟩).2.2 rfl
    rw [h]
    decide

/-- C3 counterexample: the claim quantifies over every value with no
special characters, and the empty value has none; yet parsing the header
of an empty trailing value yields the empty jar, not a singleton, because
the scan stops when the input is exhausted right after the separator. -/
theorem c3_counterexample :
    parse "a=" = [] ∧ parse "a=" ≠ [("a", "")] := by
  refine ⟨by decide, by decide⟩

/-- C3 (amended: the value must be nonempty): parsing name=value for a
name and a NONEMPTY value without special characters yields exactly the
singleton jar, and the three-pair example parses to the three bindings. -/
theorem c3_simple_pairs (name value : List Char)
    (h1 : '=' ∉ name) (h2 : ';' ∉ name) (h3 : '"' ∉ name) (h4 : trimList name = name)
    (h5 : '=' ∉ value) (h6 : ';' ∉ value) (h7 : '"' ∉ value) (h8 : trimList value = value)
    (h9 : value ≠ []) :
    parse (String.mk (name ++ '=' :: value)) = [(String.mk name, String.mk value)]
    ∧ parse "a=1; b=2; c=3" = [("a", "1"), ("b", "2"), ("c", "3")] := by
  constructor
  · show parseLoop ((name ++ '=' :: value).length + 1) (name ++ '=' :: value) [] = _
    rw [parseLoop_single _ name value h1 (dropWhile_space_of_trim_self value h8) h9 h6,
      h4, h8, processValue_of_not_quoted _ (quoteCond_eq_false value h9 h7)]
  · decide

/-- Witness for C3 on a concrete simple pair. -/
theorem c3_simple_pairs_witness :
    parse (String.mk ("session".data ++ '=' :: "abc123".data)) =
      [(String.mk "session".data, String.mk "abc123".data)] :=
  (c3_simple_pairs "session".data "abc123".data (by decide) (by decide) (by decide)
    (by decide) (by decide) (by decide) (by decide) (by decide) (by decide)).1

/-- C4: a value that is empty after trimming is not treated as quoted
(the index at position zero reads the null character that std::string
guarantees there, so the quote test fails without touching the
out-of-bounds last-character index) and the pair is accepted into the jar
with an empty value. -/
theorem c4_empty_value_guard :
    (∀ v : List Char, trimList v = [] →
        quoteCond (trimList v) = false ∧ processValue (trimList v) = trimList v)
    ∧ cppNth [] 0 = Char.ofNat 0
    ∧ parse "a=;b=c" = [("a", ""), ("b", "c")]
    ∧ Ctx.get_cookie ⟨parse "a=;b=c", []⟩ "a" = "" := by
  refine ⟨?_, by decide, by decide, by decide⟩
  intro v h
  rw [h]
  exact ⟨by decide, by decide⟩

/-- Witness for C4 at a concrete all-blank value. -/
theorem c4_empty_value_guard_witness :
    quoteCond (trimList [' ']) = false ∧ processValue (trimList [' ']) = trimList [' '] :=
  c4_empty_value_guard.1 [' '] (by decide)

/-- C5: the duration overload of max_age stores the seconds COMPONENT of
the duration, not the duration converted to whole seconds: a duration of
90 total seconds is stored as 30, so format emits Max-Age=30 where the
specification promises Max-Age=90. The third conjunct shows the overload
writes the same field as the integer overload. -/
theorem c5_max_age_seconds_component :
    ((Cookie.make "k" "v").max_age_dur ⟨90⟩).format = "k=v; Max-Age=30"
    ∧ ((Cookie.make "k" "v").max_age_dur ⟨90⟩).format ≠ "k=v; Max-Age=90"
    ∧ ((Cookie.make "k" "v").max_age_dur ⟨90⟩).max_age_ =
        ((Cookie.make "k" "v").max_age 30).max_age_ := by
  refine ⟨by decide, by decide, by decide⟩

/-- C6: jar insertion is first-write-wins: a binding already present in
the jar survives any further parsing, and the duplicate-name example
keeps its first value. -/
theorem c6_first_write_wins :
    (∀ (f : Nat) (cs : List Char) (jar : Jar) (k w : String),
        lookupJar jar k = some w → lookupJar (parseLoop f cs jar) k = some w)
    ∧ parse "dup=1; dup=2" = [("dup", "1")] := by
  refine ⟨?_, by decide⟩
  intro f
  induction f with
  | zero => intro cs jar k w h; simpa [parseLoop] using h
  | succ n ih =>
    intro cs jar k w h
    cases h3 : splitAtChar '=' cs with
    | none => simpa [parseLoop, h3] using h
    | some p =>
      obtain ⟨np, r1⟩ := p
      by_cases h4 : r1.dropWhile (· == ' ') = []
      · simpa [parseLoop, h3, h4] using h
      · cases h5 : splitAtChar ';' (r1.dropWhile (· == ' ')) with
        | none =>
          simp only [parseLoop, h3, if_neg h4, h5]
          exact lookupJar_emplace jar k w _ _ h
        | some q =>
          obtain ⟨vr, r3⟩ := q
          simp only [parseLoop, h3, if_neg h4, h5]
          exact ih _ _ _ _ (lookupJar_emplace jar k w _ _ h)

/-- Witness for C6: an existing binding survives a parse over fresh
input. -/
theorem c6_first_write_wins_witness :
    lookupJar (parseLoop 4 "x=9".data [("k", "v")]) "k" = some "v" :=
  c6_first_write_wins.1 4 "x=9".data [("k", "v")] "k" "v" (by decide)

/-- Index one before the length reads the last element of a nonempty
list, matching value[value.size()-1] on a nonempty value. -/
theorem cppNth_last (x : Char) (xs : List Char) :
    cppNth (x :: xs) ((x :: xs).length - 1) = (x :: xs).getLast (by simp) := by
  rw [cppNth, List.getD_eq_getElem?_getD, ← List.getLast?_eq_getElem?,
    List.getLast?_eq_getLast (x :: xs) (by simp)]
  rfl

/-- C7 counterexample: a value that is a single double-quote character is
NOT left as-is: the first and last character coincide, the quote test
passes, and the substr keeps nothing, so parsing a=" yields an empty
value for a. -/
theorem c7_counterexample :
    parse "a=\"" = [("a", "")] ∧ parse "a=\"" ≠ [("a", "\"")]
    ∧ processValue ['"'] ≠ ['"'] := by
  refine ⟨by decide, by decide, by decide⟩

/-- C7 (amended: a lone double quote is stripped to the empty value): a
trimmed value of length at least two wrapped in a matching pair of double
quotes loses exactly one leading and one trailing quote; a value whose
first or last character is not a double quote is left as-is; and the
single-character value consisting of one double quote satisfies the
check vacuously and becomes empty. -/
theorem c7_quote_stripping (v : List Char) :
    (2 ≤ v.length → v.head? = some '"' → v.getLast? = some '"' →
        processValue v = (v.drop 1).dropLast)
    ∧ (¬(v.head? = some '"' ∧ v.getLast? = some '"') → processValue v = v)
    ∧ processValue ['"'] = [] := by
  refine ⟨?_, ?_, by decide⟩
  · intro hlen hh hl
    cases v with
    | nil => simp at hh
    | cons x xs =>
      have hx : x = '"' := by simpa using hh
      have hlast : (x :: xs).getLast (by simp) = '"' := by
        have := List.getLast?_eq_getLast (x :: xs) (by simp)
        rw [this] at hl
        simpa using hl
      have hcond : quoteCond (x :: xs) = true := by
        rw [quoteCond, cppNth_last x xs, show cppNth (x :: xs) 0 = x from List.getD_cons_zero,
          hlast, hx]
        rfl
      rw [processValue, if_pos hcond, List.dropLast_eq_take, List.length_drop]
      simp [Nat.sub_sub]
  · intro h
    cases v with
    | nil => rfl
    | cons x xs =>
      have hcond : quoteCond (x :: xs) = false := by
        rcases not_and_or.mp h with hh | hl
        · have hx : x ≠ '"' := by simpa using hh
          rw [quoteCond, show cppNth (x :: xs) 0 = x from List.getD_cons_zero,
            beq_eq_false_iff_ne.mpr hx]
          rfl
        · have hlast : (x :: xs).getLast (by simp) ≠ '"' := by
            intro hc
            exact hl (by rw [List.getLast?_eq_getLast (x :: xs) (by simp), hc])
          rw [quoteCond, cppNth_last x xs, beq_eq_false_iff_ne.mpr hlast, Bool.and_false]
      rw [processValue, if_neg (by simp [hcond])]

/-- Witness for C7 on a concrete wrapped value and a concrete unmatched
one. -/
theorem c7_quote_stripping_witness :
    processValue "\"ab\"".data = ("\"ab\"".data.drop 1).dropLast
    ∧ processValue "\"ab".data = "\"ab".data :=
  ⟨(c7_quote_stripping "\"ab\"".data).1 (by decide) (by decide) (by decide),
   (c7_quote_stripping "\"ab".data).2.1 (by decide)⟩

/-- Headers after folding add_header over a cookie list are the original
headers followed by one Set-Cookie entry per cookie, in order. -/
theorem foldl_add_header (l : List Cookie) (res : Response) :
    (l.foldl (fun r c => r.add_header "Set-Cookie" c.format) res).headers
      = res.headers ++ l.map (fun c => ("Set-Cookie", c.format)) := by
  induction l generalizing res with
  | nil => simp
  | cons c t ih =>
    rw [List.foldl_cons, ih]
    simp [Response.add_header, List.append_assoc]

/-- C8: after_handle appends exactly one Set-Cookie header per staged
cookie, each valued by that cookie's format, in staging order, and the
context (hence cookies_to_add) is left unchanged. -/
theorem c8_after_handle (res : Response) (ctx : Ctx) :
    (after_handle res ctx).1.headers
      = res.headers ++ ctx.cookies_to_add.map (fun c => ("Set-Cookie", c.format))
    ∧ (after_handle res ctx).2 = ctx
    ∧ (after_handle res ctx).1.code = res.code
    ∧ (after_handle res ctx).1.ended = res.ended := by
  refine ⟨foldl_add_header ctx.cookies_to_add res, rfl, ?_, ?_⟩
  · show (List.foldl _ res _).code = res.code
    induction ctx.cookies_to_add generalizing res with
    | nil => rfl
    | cons c t ih => exact ih (res.add_header "Set-Cookie" c.format)
  · show (List.foldl _ res _).ended = res.ended
    induction ctx.cookies_to_add generalizing res with
    | nil => rfl
    | cons c t ih => exact ih (res.add_header "Set-Cookie" c.format)

/-- C9 counterexample: a cookie whose value contains a semicolon does not
survive the round trip: format of (k, ;) is k=;, which parses back to an
empty value for k. -/
theorem c9_counterexample :
    parse ((Cookie.make "k" ";").format) = [("k", "")]
    ∧ parse ((Cookie.make "k" ";").format) ≠ [("k", ";")] := by
  refine ⟨by decide, by decide⟩

/-- C9 (amended: the key must contain no separator and no surrounding
whitespace, and the value no semicolon, no surrounding whitespace, and
must not pass the quote test): for such attribute-free cookies, format
followed by the header parser reproduces the original key and value; the
empty value round-trips through its two-quote rendering. -/
theorem c9_round_trip (k v : String)
    (hk1 : '=' ∉ k.data) (hk2 : trimList k.data = k.data)
    (hv1 : ';' ∉ v.data) (hv2 : trimList v.data = v.data) (hv3 : quoteCond v.data = false) :
    parse ((Cookie.make k v).format) = [(k, v)] := by
  by_cases hv0 : v = ""
  · subst hv0
    have hf : (Cookie.make k "").format = k ++ "=" ++ "\"\"" := by
      simp [Cookie.make, Cookie.format]
    rw [hf]
    show parseLoop ((k ++ "=" ++ "\"\"").data.length + 1) (k ++ "=" ++ "\"\"").data [] = _
    have hdata : (k ++ "=" ++ "\"\"").data = k.data ++ '=' :: ['"', '"'] := by
      rw [String.data_append, String.data_append, List.append_assoc]
      rfl
    rw [hdata, parseLoop_single _ k.data ['"', '"'] hk1 (by decide) (by decide) (by decide),
      hk2]
    show [(String.mk k.data, String.mk (processValue (trimList ['"', '"'])))] = [(k, "")]
    rw [show String.mk (processValue (trimList ['"', '"'])) = "" by decide]
  · have hne : v.data ≠ [] := by
      intro hc
      exact hv0 (by cases v with | mk d => cases hc; rfl)
    have hf : (Cookie.make k v).format = k ++ "=" ++ v := by
      simp [Cookie.make, Cookie.format, hv0]
    rw [hf]
    show parseLoop ((k ++ "=" ++ v).data.length + 1) (k ++ "=" ++ v).data [] = _
    have hdata : (k ++ "=" ++ v).data = k.data ++ '=' :: v.data := by
      rw [String.data_append, String.data_append, List.append_assoc]
      rfl
    rw [hdata, parseLoop_single _ k.data v.data hk1
      (dropWhile_space_of_trim_self v.data hv2) hne hv1, hk2, hv2,
      processValue_of_not_quoted _ hv3]

/-- Witness for C9 on a concrete key and value and on the empty value. -/
theorem c9_round_trip_witness :
    parse ((Cookie.make "session" "abc123").format) = [("session", "abc123")]
    ∧ parse ((Cookie.make "k" "").format) = [("k", "")] :=
  ⟨c9_round_trip "session" "abc123" (by decide) (by decide) (by decide) (by decide)
    (by decide),
   c9_round_trip "k" "" (by decide) (by decide) (by decide) (by decide) (by decide)⟩

/-- One scanning iteration strictly shrinks the remaining suffix: the
name part, the separator, the value part and the semicolon are all
consumed before the next iteration starts. -/
theorem parseStep_decrease (cs np r1 vr r3 : List Char)
    (h1 : splitAtChar '=' cs = some (np, r1))
    (h2 : splitAtChar ';' (r1.dropWhile (· == ' ')) = some (vr, r3)) :
    (r3.dropWhile (· == ' ')).length < cs.length := by
  have e1 : cs = np ++ '=' :: r1 := splitAtChar_eq_some '=' cs h1
  have e2 : r1.dropWhile (· == ' ') = vr ++ ';' :: r3 := splitAtChar_eq_some ';' _ h2
  have d3 : (r3.dropWhile (· == ' ')).length ≤ r3.length := length_dropWhile_le _ _
  have d1 : (r1.dropWhile (· == ' ')).length ≤ r1.length := length_dropWhile_le _ _
  rw [e2] at d1
  rw [e1]
  simp only [List.length_append, List.length_cons] at d1 ⊢
  omega

/-- C10: the scanning loop terminates on every input: any two fuel values
larger than the remaining length give the same jar (so the fuel used by
parse never cuts the loop short and parsing is a total function of the
header), because each iteration either exits or strictly decreases the
remaining suffix. -/
theorem c10_loop_terminates :
    (∀ (f1 f2 : Nat) (cs : List Char) (jar : Jar), cs.length < f1 → cs.length < f2 →
        parseLoop f1 cs jar = parseLoop f2 cs jar)
    ∧ (∀ (cs np r1 vr r3 : List Char), splitAtChar '=' cs = some (np, r1) →
        splitAtChar ';' (r1.dropWhile (· == ' ')) = some (vr, r3) →
        (r3.dropWhile (· == ' ')).length < cs.length) := by
  constructor
  · suffices H : ∀ (n f1 f2 : Nat) (cs : List Char) (jar : Jar), cs.length ≤ n →
        cs.length < f1 → cs.length < f2 → parseLoop f1 cs jar = parseLoop f2 cs jar by
      intro f1 f2 cs jar h1 h2
      exact H cs.length f1 f2 cs jar le_rfl h1 h2
    intro n
    induction n with
    | zero =>
      intro f1 f2 cs jar hle h1 h2
      have hcs : cs = [] := List.eq_nil_of_length_eq_zero (Nat.le_zero.mp hle)
      subst hcs
      obtain ⟨m1, rfl⟩ : ∃ m, f1 = m + 1 := ⟨f1 - 1, by omega⟩
      obtain ⟨m2, rfl⟩ : ∃ m, f2 = m + 1 := ⟨f2 - 1, by omega⟩
      rfl
    | succ n ih =>
      intro f1 f2 cs jar hle h1 h2
      obtain ⟨m1, rfl⟩ : ∃ m, f1 = m + 1 := ⟨f1 - 1, by omega⟩
      obtain ⟨m2, rfl⟩ : ∃ m, f2 = m + 1 := ⟨f2 - 1, by omega⟩
      cases h3 : splitAtChar '=' cs with
      | none => simp [parseLoop, h3]
      | some p =>
        obtain ⟨np, r1⟩ := p
        by_cases h4 : r1.dropWhile (· == ' ') = []
        · simp [parseLoop, h3, h4]
        · cases h5 : splitAtChar ';' (r1.dropWhile (· == ' ')) with
          | none => simp [parseLoop, h3, if_neg h4, h5]
          | some q =>
            obtain ⟨vr, r3⟩ := q
            simp only [parseLoop, h3, if_neg h4, h5]
            have hd := parseStep_decrease cs np r1 vr r3 h3 h5
            exact ih m1 m2 _ _ (by omega) (by omega) (by omega)
  · exact parseStep_decrease

/-- Witness for C10 at concrete fuels and a concrete two-pair header. -/
theorem c10_loop_terminates_witness :
    parseLoop 9 "a=1; b=2".data [] = parseLoop 12 "a=1; b=2".data []
    ∧ (['b'].dropWhile (· == ' ')).length < "a=1;b".data.length :=
  ⟨c10_loop_terminates.1 9 12 "a=1; b=2".data [] (by decide) (by decide),
   c10_loop_terminates.2 "a=1;b".data ['a'] "1;b".data ['1'] ['b'] (by decide) (by decide)⟩

/-- C1: format is key=value (an empty value rendered as the two-character
quoted-empty literal, a nonempty one verbatim) followed by exactly the
present attributes in the fixed order Expires, Max-Age, Domain, Path,
Secure, HttpOnly, SameSite, each preceded by the two-character divider;
and setter calls targeting distinct attributes commute, so the output
depends only on the final field values and not on the order in which the
setters were called. -/
theorem c1_format_layout (c : Cookie) (o1 o2 : SOp) (h : attrIdx o1 ≠ attrIdx o2) :
    c.format = (c.key_ ++ "=" ++ (if c.value_ = "" then "\"\"" else c.value_))
        ++ prefixJoin (attrSegments c)
    ∧ applyOp (applyOp c o1) o2 = applyOp (applyOp c o2) o1 := by
  constructor
  · obtain ⟨key, val, ma, dom, pa, sec, ho, exp, ssp⟩ := c
    cases exp <;> cases ma <;> cases ssp <;> cases sec <;> cases ho <;>
      by_cases hdom : dom = "" <;> by_cases hpa : pa = "" <;>
        simp [-String.reduceAppend, Cookie.format, attrSegments, prefixJoin, hdom, hpa,
          String.append_assoc, String.append_empty]
  · cases o1 <;> cases o2 <;> first
      | exact absurd rfl h
      | (cases c; rfl)

/-- Witness for C1 at a concrete cookie and a concrete pair of distinct
setters. -/
theorem c1_format_layout_witness :
    ((((Cookie.make "k" "v").domain "example.com").path "/").secure).format
        = "k=v; Domain=example.com; Path=/; Secure"
    ∧ applyOp (applyOp (Cookie.make "k" "v") (SOp.domainA "example.com")) (SOp.pathA "/")
        = applyOp (applyOp (Cookie.make "k" "v") (SOp.pathA "/")) (SOp.domainA "example.com") := by
  have h := c1_format_layout ((((Cookie.make "k" "v").domain "example.com").path "/").secure)
    (SOp.domainA "example.com") (SOp.pathA "/") (by decide)
  refine ⟨?_, (c1_format_layout (Cookie.make "k" "v") (SOp.domainA "example.com")
    (SOp.pathA "/") (by decide)).2⟩
  rw [h.1]
  decide

end Crow
